import Mathlib

/-!
Verification of the education4climate scorer (`src/score/find_patterns.py`).

The pipeline's pure core is embedded shallowly:

* texts are `List Char` (so that slicing is explicit), field names and
  language codes are `String`;
* the external `langdetect` detector enters the model of `find_language` as a
  function parameter `detect`, where `detect t = none` models the library
  raising `LangDetectException` and `detect t = some gs` models a successful
  detection returning the ranked language codes `gs`;
* the external regular-expression engine enters the model of
  `find_pattern_in_course_field` as a function parameter `finditer`, mapping a
  compiled sub-pattern and a text to the ordered list of match spans;
* the SQLite sink `T_matches` is modelled as the list of rows appended so far;
  `to_sql(..., if_exists='append')` is list append.
-/

/-- The set of languages supported by the scorer (`ACCEPTED_LANGUAGES`,
line 22 of the source). -/
def ACCEPTED_LANGUAGES : List String := ["en", "fr", "nl"]

/-- Shallow embedding of `find_language(text, declared_languages)`
(source lines 83-96).

`text = none` models a missing (`None`) field.  The function returns `none`
when the text is missing, returns `none` when detection raises
(`except LangDetectException: return None`), otherwise keeps the detected
codes that are accepted, in detector order; if none survive the filter it
falls back to the intersection of the declared languages with the accepted
set.  Python builds that intersection as a `set`, whose iteration order is
unspecified; the model fixes the accepted-language order.  No statement proved
below depends on that order. -/
def find_language (detect : List Char → Option (List String))
    (text : Option (List Char)) (declared_languages : List String) :
    Option (List String) :=
  match text with
  | none => none
  | some t =>
    match detect t with
    | none => none
    | some guesses =>
      let detected_and_supported_languages :=
        guesses.filter (fun l => decide (l ∈ ACCEPTED_LANGUAGES))
      if detected_and_supported_languages.isEmpty then
        some (ACCEPTED_LANGUAGES.filter (fun l => decide (l ∈ declared_languages)))
      else
        some detected_and_supported_languages

/-- The per-character translation table built in `import_courses`
(source lines 121-127): non-breaking space (U+00A0) maps to an ordinary
space, the right single quotation mark (U+2019) maps to an apostrophe
(U+0027); every other character maps to itself. -/
def translation_map (c : Char) : Char :=
  if c = '\u00A0' then ' '
  else if c = '\u2019' then '\u0027'
  else c

/-- Shallow embedding of the inner `clean_text` of `import_courses`
(source lines 129-131): `text.translate(translation_map)` applies the
character translation at every position. -/
def clean_text (text : List Char) : List Char :=
  text.map translation_map

/-- Python `str.replace(old, new)` on character lists: replace every
non-overlapping occurrence of `old`, scanning left to right.  `correct` only
calls this with non-empty `old`; for `old = []` the model leaves the string
unchanged, a case the program never exercises. -/
def replaceAll (old new : List Char) (s : List Char) : List Char :=
  match s with
  | [] => []
  | c :: cs =>
    if h : old ≠ [] ∧ old.isPrefixOf (c :: cs) then
      new ++ replaceAll old new (List.drop old.length (c :: cs))
    else
      c :: replaceAll old new cs
termination_by s.length
decreasing_by
  · have h1 : 1 ≤ old.length := by
      cases old with
      | nil => exact absurd rfl h.1
      | cons a as => exact Nat.succ_le_succ (Nat.zero_le _)
    simp only [List.length_drop, List.length_cons]
    omega
  · simp only [List.length_cons]
    exact Nat.lt_succ_self _

/-- Shallow embedding of `correct` in `import_patterns` (source lines
151-155): three successive `str.replace` calls on the raw pattern, namely
`"[- ]"` to `"[\-\s]"`, then `"[^ ]"` to `"[^\s]"`, then `" "` to `"\s+"`,
in that order; a missing (`None`) pattern is passed through unchanged. -/
def correct (pattern : Option (List Char)) : Option (List Char) :=
  match pattern with
  | none => none
  | some p =>
      some (replaceAll " ".data "\\s+".data
             (replaceAll "[^ ]".data "[^\\s]".data
               (replaceAll "[- ]".data "[\\-\\s]".data p)))

/-- One-pass reading of the normalizer, following the specification text: at
each position, the substring `"[- ]"` becomes `"[\-\s]"`, otherwise the
substring `"[^ ]"` becomes `"[^\s]"`, otherwise a literal space becomes
`"\s+"`, and any other character is copied unchanged.  It is proved below to
coincide with the three sequential replacements of `correct`. -/
def correctOnePass (s : List Char) : List Char :=
  match s with
  | [] => []
  | c :: cs =>
    if List.isPrefixOf ['[', '-', ' ', ']'] (c :: cs) then
      ['[', '\\', '-', '\\', 's', ']'] ++ correctOnePass (cs.drop 3)
    else if List.isPrefixOf ['[', '^', ' ', ']'] (c :: cs) then
      ['[', '^', '\\', 's', ']'] ++ correctOnePass (cs.drop 3)
    else if c = ' ' then
      ['\\', 's', '+'] ++ correctOnePass cs
    else
      c :: correctOnePass cs
termination_by s.length
decreasing_by
  · simp only [List.length_cons, List.length_drop]
    omega
  · simp only [List.length_cons, List.length_drop]
    omega
  · simp only [List.length_cons]
    exact Nat.lt_succ_self _
  · simp only [List.length_cons]
    exact Nat.lt_succ_self _

/-- A compiled regular expression, as produced by
`re.compile(pat, re.IGNORECASE)`: the model keeps the pattern text and the
case-insensitivity flag.  The matching engine itself is external to the
program and enters the match-engine model as a parameter. -/
structure CompiledPattern where
  pattern : List Char
  ignoreCase : Bool
deriving DecidableEq

/-- Model of `re.compile(pat, re.IGNORECASE)`. -/
def re_compile (pat : List Char) : CompiledPattern :=
  { pattern := pat, ignoreCase := true }

/-- Shallow embedding of `break_into_sub_patterns` in `import_patterns`
(source lines 161-165): split the normalized pattern on `'#'` and compile
each segment, left to right; a missing (`None`) pattern yields the empty
chain. -/
def break_into_sub_patterns (pattern : Option (List Char)) :
    List CompiledPattern :=
  match pattern with
  | none => []
  | some p => (p.splitOn '#').map re_compile

/-- Type of the external regular-expression engine:
`finditer m text` models `list(m.finditer(text))` as the ordered list of
match spans `(start, end)`.  Claims about the match engine are proved for
every engine; witnesses instantiate it concretely. -/
abbrev RegexEngine : Type := CompiledPattern → List Char → List (Nat × Nat)

/-- One row of the language-annotated course table, as consumed by
`find_pattern_in_course_field` through `getattr`: `fields f` models
`getattr(course, f, None)` for a scoring field `f`, and
`languages4scoring f` models
`getattr(course, f + "_languages4scoring", None)`. -/
structure Course where
  id : List Char
  fields : String → Option (List Char)
  languages4scoring : String → Option (List String)

/-- One row of the compiled pattern table (after the renaming at source lines
171-174): `chain l` models `getattr(pattern, l, None)`, the compiled
sub-pattern chain of this taxonomy entry for language `l`. -/
structure PatternRow where
  id : Nat
  chain : String → Option (List CompiledPattern)

/-- One row appended to the `T_matches` table (source lines 208-218). -/
structure MatchRecord where
  id : List Char
  field : String
  pattern : Nat
  sub_pattern : List Char
  start : Nat
  «end» : Nat
  extract : List Char
deriving DecidableEq

/-- The record dictionary built for one match span (source lines 206-218),
including the excerpt `text[max(0, start-20) : min(end+20, len(text)-1)]`.
On natural numbers `start - 20` is truncated subtraction, which equals
`max(0, start - 20)`, and the Python slice `text[a:b]` (with `0 ≤ a`, `0 ≤ b`)
is `(text.drop a).take (b - a)`. -/
def make_match_record (course_id : List Char) (scoring_field : String)
    (pattern_id : Nat) (sub_pattern : List Char) (text : List Char)
    (span : Nat × Nat) : MatchRecord :=
  { id := course_id
    field := scoring_field
    pattern := pattern_id
    sub_pattern := sub_pattern
    start := span.1
    «end» := span.2
    extract := (text.drop (span.1 - 20)).take
                 (min (span.2 + 20) (text.length - 1) - (span.1 - 20)) }

/-- The sub-pattern loop of `find_pattern_in_course_field` (source lines
197-218): walk the chain in stored order, accumulating one record per match
occurrence into `matched_patterns`; as soon as one sub-pattern has no match,
the whole call returns without touching the sink — modelled by `none`.
`some recs` models reaching the end of the loop with accumulator `recs`. -/
def find_pattern_loop (finditer : RegexEngine) (text course_id : List Char)
    (scoring_field : String) (pattern_id : Nat)
    (matched_patterns : List MatchRecord) :
    List CompiledPattern → Option (List MatchRecord)
  | [] => some matched_patterns
  | sub_pattern :: rest =>
      if (finditer sub_pattern text).isEmpty then
        none
      else
        find_pattern_loop finditer text course_id scoring_field pattern_id
          (matched_patterns ++ (finditer sub_pattern text).map
            (make_match_record course_id scoring_field pattern_id
              sub_pattern.pattern text))
          rest

/-- Shallow embedding of `find_pattern_in_course_field(course, scoring_field,
pattern, db)` (source lines 181-223).  `db` is the current contents of the
`T_matches` sink; the function returns the sink contents after the call.
In Python, `if not x` is taken both by `None` and by an empty string / list,
so each guard has a `none` case and an empty case.  Only when every
sub-pattern of the chain matched is the local accumulator appended to the
sink (`to_sql(..., if_exists='append')`). -/
def find_pattern_in_course_field (finditer : RegexEngine) (course : Course)
    (scoring_field : String) (pattern : PatternRow)
    (db : List MatchRecord) : List MatchRecord :=
  match course.fields scoring_field with
  | none => db
  | some text =>
    if text.isEmpty then db
    else
      match course.languages4scoring scoring_field with
      | none => db
      | some [] => db
      | some (main_language :: _) =>
        match pattern.chain main_language with
        | none => db
        | some [] => db
        | some sub_patterns =>
          match find_pattern_loop finditer text course.id scoring_field
              pattern.id [] sub_patterns with
          | none => db
          | some matched_patterns => db ++ matched_patterns

/-- C9: whenever `find_language` returns a list (rather than `None`), every
element of that list is a member of the accepted-language set; this covers
both the detection branch and the declared-language fallback branch. -/
theorem find_language_subset_accepted
    (detect : List Char → Option (List String)) (text : Option (List Char))
    (declared_languages : List String) (l : List String)
    (h : find_language detect text declared_languages = some l) :
    ∀ x ∈ l, x ∈ ACCEPTED_LANGUAGES := by
  intro x hx
  cases text with
  | none => exact absurd h (by simp [find_language])
  | some t =>
    cases hdet : detect t with
    | none => rw [find_language, hdet] at h; exact absurd h (by simp)
    | some guesses =>
      rw [find_language, hdet] at h
      by_cases he :
          (guesses.filter (fun l => decide (l ∈ ACCEPTED_LANGUAGES))).isEmpty
      · simp only [he, if_true, Option.some.injEq] at h
        subst h
        exact (List.mem_filter.mp hx).1
      · rw [Bool.not_eq_true] at he
        simp only [he, Bool.false_eq_true, if_false, Option.some.injEq] at h
        subst h
        exact of_decide_eq_true (List.mem_filter.mp hx).2

/-- Witness for C9 at a concrete input: the detector guesses Italian then
French, only French survives, the function returns `["fr"]`, and its element
is indeed accepted. -/
theorem find_language_subset_accepted_witness :
    "fr" ∈ ACCEPTED_LANGUAGES :=
  find_language_subset_accepted (fun _ => some ["it", "fr"])
    (some "x".data) ["it"] ["fr"] (by decide) "fr" (by decide)

/-- C4: when detection succeeds and its ranked guesses filtered to the
accepted set are non-empty, `find_language` returns exactly that filtered
list, in the detector's order, and the declared languages are ignored
entirely (the result does not depend on them). -/
theorem detection_wins_over_declared
    (detect : List Char → Option (List String)) (t : List Char)
    (declared_languages guesses : List String)
    (hdet : detect t = some guesses)
    (hne : guesses.filter (fun l => decide (l ∈ ACCEPTED_LANGUAGES)) ≠ []) :
    find_language detect (some t) declared_languages =
      some (guesses.filter (fun l => decide (l ∈ ACCEPTED_LANGUAGES))) ∧
    ∀ other_declared,
      find_language detect (some t) other_declared =
        find_language detect (some t) declared_languages := by
  have hne' : (guesses.filter (fun l => decide (l ∈ ACCEPTED_LANGUAGES))).isEmpty
      = false := by
    cases hc : (guesses.filter (fun l => decide (l ∈ ACCEPTED_LANGUAGES))) with
    | nil => exact absurd hc hne
    | cons a as => rfl
  constructor
  · rw [find_language, hdet]
    simp only [hne', Bool.false_eq_true, if_false]
  · intro other_declared
    rw [find_language, find_language, hdet]
    simp only [hne', Bool.false_eq_true, if_false]

/-- Witness for C4 at a concrete input: a clearly English sentence (detector
answers `["en"]`) with declared language `["fr"]` resolves to `["en"]`, and
changing the declared languages to `["nl"]` does not change the result. -/
theorem detection_wins_over_declared_witness :
    find_language (fun _ => some ["en"]) (some "The course is in English".data)
        ["fr"] = some ["en"] ∧
    find_language (fun _ => some ["en"]) (some "The course is in English".data)
        ["nl"] =
      find_language (fun _ => some ["en"]) (some "The course is in English".data)
        ["fr"] :=
  ⟨(detection_wins_over_declared (fun _ => some ["en"]) _ ["fr"] ["en"] rfl
      (by decide)).1,
   (detection_wins_over_declared (fun _ => some ["en"]) _ ["fr"] ["en"] rfl
      (by decide)).2 ["nl"]⟩

/-- C3 (the code contradicts its own docstring here): when the detector
raises (`detect t = none`, modelling `LangDetectException`), `find_language`
returns `None` — it does NOT fall back to the declared languages, although
its docstring announces "If the detection fails ... we'll take into account
the language(s) of the lesson as declared by the teacher".  So for a text too
short for detection with declared languages `["nl"]`, the function yields
`none` and the field is silently skipped, not resolved to `"nl"`. -/
theorem find_language_detection_failure_returns_none
    (detect : List Char → Option (List String)) (t : List Char)
    (declared_languages : List String) (hdet : detect t = none) :
    find_language detect (some t) declared_languages = none := by
  rw [find_language, hdet]

/-- Witness for C3's divergence at a concrete input: detection raises on the
short text `"zo"`; with declared languages `["nl"]` the code returns `none`
(whereas the claim expects the fallback `["nl"]`). -/
theorem find_language_detection_failure_returns_none_witness :
    find_language (fun _ => none) (some "zo".data) ["nl"] = none :=
  find_language_detection_failure_returns_none (fun _ => none) "zo".data
    ["nl"] rfl

/-- Helper: a sub-pattern with zero matches anywhere in the chain makes the
sub-pattern loop abort with `none`, whatever the accumulator holds. -/
theorem find_pattern_loop_abort (finditer : RegexEngine)
    (text course_id : List Char) (scoring_field : String) (pattern_id : Nat)
    (sp : CompiledPattern) (hfail : finditer sp text = []) :
    ∀ (chain : List CompiledPattern) (acc : List MatchRecord), sp ∈ chain →
      find_pattern_loop finditer text course_id scoring_field pattern_id acc
        chain = none := by
  intro chain
  induction chain with
  | nil => intro acc hmem; cases hmem
  | cons head rest ih =>
    intro acc hmem
    rw [find_pattern_loop]
    by_cases hh : (finditer head text).isEmpty
    · rw [if_pos hh]
    · rw [if_neg hh]
      rcases List.mem_cons.mp hmem with heq | hmem2
      · subst heq
        rw [hfail] at hh
        exact absurd rfl hh
      · exact ih _ hmem2

/-- Helper: when every sub-pattern of the chain has at least one match, the
sub-pattern loop completes and returns the accumulator followed by one record
per span per sub-pattern, in chain order. -/
theorem find_pattern_loop_success (finditer : RegexEngine)
    (text course_id : List Char) (scoring_field : String) (pattern_id : Nat) :
    ∀ (chain : List CompiledPattern), (∀ sp ∈ chain, finditer sp text ≠ []) →
      ∀ acc : List MatchRecord,
        find_pattern_loop finditer text course_id scoring_field pattern_id acc
            chain =
          some (acc ++ chain.flatMap (fun sp => (finditer sp text).map
            (make_match_record course_id scoring_field pattern_id sp.pattern
              text))) := by
  intro chain
  induction chain with
  | nil => intro _ acc; simp [find_pattern_loop]
  | cons head rest ih =>
    intro hall acc
    rw [find_pattern_loop]
    have hne : (finditer head text).isEmpty = false := by
      cases hh : finditer head text with
      | nil => exact absurd hh (hall head (List.mem_cons_self head rest))
      | cons a as => rfl
    rw [hne]
    simp only [Bool.false_eq_true, if_false]
    rw [ih (fun sp hsp => hall sp (List.mem_cons_of_mem head hsp))]
    simp [List.flatMap_cons, List.append_assoc]

/-- C8: every unmet precondition — missing or empty field text, missing or
empty resolved-language list, or a missing or empty compiled chain for the
primary resolved language — makes `find_pattern_in_course_field` return with
the sink unchanged: no record is appended and (being a total function) no
error is raised. -/
theorem precondition_silent_skip (finditer : RegexEngine) (course : Course)
    (scoring_field : String) (pattern : PatternRow) (db : List MatchRecord)
    (h : course.fields scoring_field = none ∨
         course.fields scoring_field = some [] ∨
         course.languages4scoring scoring_field = none ∨
         course.languages4scoring scoring_field = some [] ∨
         (∃ main_language other_languages,
            course.languages4scoring scoring_field =
              some (main_language :: other_languages) ∧
            (pattern.chain main_language = none ∨
             pattern.chain main_language = some []))) :
    find_pattern_in_course_field finditer course scoring_field pattern db
      = db := by
  rcases h with h | h | h | h | ⟨main_language, other_languages, hlang, hch⟩
  · simp only [find_pattern_in_course_field, h]
  · simp only [find_pattern_in_course_field, h, List.isEmpty_nil, if_true]
  · cases hf : course.fields scoring_field with
    | none => simp only [find_pattern_in_course_field, hf]
    | some text =>
      by_cases he : text.isEmpty
      · simp only [find_pattern_in_course_field, hf, he, if_true]
      · rw [Bool.not_eq_true] at he
        simp only [find_pattern_in_course_field, hf, he, Bool.false_eq_true,
          if_false, h]
  · cases hf : course.fields scoring_field with
    | none => simp only [find_pattern_in_course_field, hf]
    | some text =>
      by_cases he : text.isEmpty
      · simp only [find_pattern_in_course_field, hf, he, if_true]
      · rw [Bool.not_eq_true] at he
        simp only [find_pattern_in_course_field, hf, he, Bool.false_eq_true,
          if_false, h]
  · cases hf : course.fields scoring_field with
    | none => simp only [find_pattern_in_course_field, hf]
    | some text =>
      by_cases he : text.isEmpty
      · simp only [find_pattern_in_course_field, hf, he, if_true]
      · rw [Bool.not_eq_true] at he
        rcases hch with hch | hch <;>
          simp only [find_pattern_in_course_field, hf, he, Bool.false_eq_true,
            if_false, hlang, hch]

/-- Witness for C8 at a concrete input: a course whose description field is
the empty string contributes no record, whatever the pattern row is. -/
theorem precondition_silent_skip_witness :
    find_pattern_in_course_field (fun _ _ => [(0, 1)])
      { id := "c1".data, fields := fun _ => some [],
        languages4scoring := fun _ => some ["en"] }
      "description"
      { id := 3, chain := fun _ => some [re_compile "a".data] } [] = [] :=
  precondition_silent_skip (fun _ _ => [(0, 1)])
    { id := "c1".data, fields := fun _ => some [],
      languages4scoring := fun _ => some ["en"] }
    "description"
    { id := 3, chain := fun _ => some [re_compile "a".data] } []
    (Or.inr (Or.inl rfl))

/-- C1: as soon as one sub-pattern of the selected chain has zero matches in
the field text, the call leaves the sink exactly as it was — zero match
records are emitted for this field/entry pair, even if sub-patterns earlier
in the chain matched. -/
theorem chain_abort_emits_no_records (finditer : RegexEngine) (course : Course)
    (scoring_field : String) (pattern : PatternRow) (db : List MatchRecord)
    (text : List Char) (main_language : String)
    (other_languages : List String) (chain : List CompiledPattern)
    (sp : CompiledPattern)
    (htext : course.fields scoring_field = some text)
    (hlang : course.languages4scoring scoring_field =
      some (main_language :: other_languages))
    (hchain : pattern.chain main_language = some chain)
    (hmem : sp ∈ chain) (hfail : finditer sp text = []) :
    find_pattern_in_course_field finditer course scoring_field pattern db
      = db := by
  cases chain with
  | nil => cases hmem
  | cons head rest =>
    have habort := find_pattern_loop_abort finditer text course.id
      scoring_field pattern.id sp hfail (head :: rest) [] hmem
    by_cases he : text.isEmpty
    · simp only [find_pattern_in_course_field, htext, he, if_true]
    · rw [Bool.not_eq_true] at he
      simp only [find_pattern_in_course_field, htext, he, Bool.false_eq_true,
        if_false, hlang, hchain, habort]

/-- Witness for C1 at a concrete input: a two-segment chain whose first
segment matches (span `(0, 5)`) but whose second has no match emits nothing:
the sink stays empty. -/
theorem chain_abort_emits_no_records_witness :
    find_pattern_in_course_field
      (fun sp _ => if sp.pattern = "alpha".data then [(0, 5)] else [])
      { id := "c1".data, fields := fun _ => some "alpha text".data,
        languages4scoring := fun _ => some ["en"] }
      "description"
      { id := 3,
        chain := fun _ =>
          some [re_compile "alpha".data, re_compile "beta".data] }
      [] = [] :=
  chain_abort_emits_no_records
    (fun sp _ => if sp.pattern = "alpha".data then [(0, 5)] else [])
    { id := "c1".data, fields := fun _ => some "alpha text".data,
      languages4scoring := fun _ => some ["en"] }
    "description"
    { id := 3,
      chain := fun _ =>
        some [re_compile "alpha".data, re_compile "beta".data] }
    [] "alpha text".data "en" [] [re_compile "alpha".data, re_compile "beta".data]
    (re_compile "beta".data) rfl rfl rfl (by decide) (by decide)

/-- C2: when the field text is present and non-empty, the resolved-language
list is non-empty, and every sub-pattern of the selected non-empty chain has
at least one match, the call appends to the sink — in a single commit, after
the whole chain is confirmed — exactly one record per match occurrence per
sub-pattern, the sub-patterns being processed in stored chain order. -/
theorem chain_success_appends_all_records (finditer : RegexEngine)
    (course : Course) (scoring_field : String) (pattern : PatternRow)
    (db : List MatchRecord) (text : List Char) (main_language : String)
    (other_languages : List String) (chain : List CompiledPattern)
    (htext : course.fields scoring_field = some text) (hne : text ≠ [])
    (hlang : course.languages4scoring scoring_field =
      some (main_language :: other_languages))
    (hchain : pattern.chain main_language = some chain) (hchne : chain ≠ [])
    (hall : ∀ sp ∈ chain, finditer sp text ≠ []) :
    find_pattern_in_course_field finditer course scoring_field pattern db =
      db ++ chain.flatMap (fun sp => (finditer sp text).map
        (make_match_record course.id scoring_field pattern.id sp.pattern
          text)) := by
  have he : text.isEmpty = false := by
    cases text with
    | nil => exact absurd rfl hne
    | cons c cs => rfl
  cases chain with
  | nil => exact absurd rfl hchne
  | cons head rest =>
    have hsucc := find_pattern_loop_success finditer text course.id
      scoring_field pattern.id (head :: rest) hall []
    simp only [find_pattern_in_course_field, htext, he, Bool.false_eq_true,
      if_false, hlang, hchain, hsucc, List.nil_append]

/-- Witness for C2 at a concrete input: a two-segment chain where the first
segment matches twice and the second once appends exactly those three
records, in chain order, to the previously empty sink. -/
theorem chain_success_appends_all_records_witness :
    find_pattern_in_course_field
      (fun sp _ => if sp.pattern = "a".data then [(0, 1), (8, 9)] else [(2, 6)])
      { id := "c1".data, fields := fun _ => some "a text with a".data,
        languages4scoring := fun _ => some ["fr"] }
      "name"
      { id := 7,
        chain := fun _ => some [re_compile "a".data, re_compile "text".data] }
      [] =
    [] ++ [re_compile "a".data, re_compile "text".data].flatMap
      (fun sp =>
        ((fun sp _ => if sp.pattern = "a".data then [(0, 1), (8, 9)]
            else [(2, 6)] : RegexEngine) sp "a text with a".data).map
          (make_match_record "c1".data "name" 7 sp.pattern
            "a text with a".data)) :=
  chain_success_appends_all_records
    (fun sp _ => if sp.pattern = "a".data then [(0, 1), (8, 9)] else [(2, 6)])
    { id := "c1".data, fields := fun _ => some "a text with a".data,
      languages4scoring := fun _ => some ["fr"] }
    "name"
    { id := 7,
      chain := fun _ => some [re_compile "a".data, re_compile "text".data] }
    [] "a text with a".data "fr" []
    [re_compile "a".data, re_compile "text".data]
    rfl (by decide) rfl rfl (by decide) (by decide)

/-- Helper: every record in a completed sub-pattern loop either was already in
the accumulator or is `make_match_record` of a span the engine returned for
some sub-pattern of the chain. -/
theorem find_pattern_loop_mem (finditer : RegexEngine)
    (text course_id : List Char) (scoring_field : String) (pattern_id : Nat) :
    ∀ (chain : List CompiledPattern) (acc res : List MatchRecord),
      find_pattern_loop finditer text course_id scoring_field pattern_id acc
        chain = some res →
      ∀ r ∈ res, r ∈ acc ∨ ∃ sp span, sp ∈ chain ∧ span ∈ finditer sp text ∧
        r = make_match_record course_id scoring_field pattern_id sp.pattern
              text span := by
  intro chain
  induction chain with
  | nil =>
    intro acc res h r hr
    simp only [find_pattern_loop, Option.some.injEq] at h
    subst h
    exact Or.inl hr
  | cons head rest ih =>
    intro acc res h r hr
    rw [find_pattern_loop] at h
    by_cases hh : (finditer head text).isEmpty
    · rw [if_pos hh] at h; cases h
    · rw [if_neg hh] at h
      rcases ih _ _ h r hr with hacc | ⟨sp, span, hsp, hspan, hrec⟩
      · rcases List.mem_append.mp hacc with h1 | h2
        · exact Or.inl h1
        · obtain ⟨span, hspan, hrec⟩ := List.mem_map.mp h2
          exact Or.inr ⟨head, span, List.mem_cons_self _ _, hspan, hrec.symm⟩
      · exact Or.inr ⟨sp, span, List.mem_cons_of_mem _ hsp, hspan, hrec⟩

/-- Helper: every record emitted by one call to
`find_pattern_in_course_field` (the part of the sink beyond the records
already present) is `make_match_record` of a span the engine returned on the
field's text. -/
theorem find_pattern_in_course_field_emitted (finditer : RegexEngine)
    (course : Course) (scoring_field : String) (pattern : PatternRow)
    (db : List MatchRecord) (text : List Char)
    (htext : course.fields scoring_field = some text) :
    ∀ r ∈ (find_pattern_in_course_field finditer course scoring_field pattern
        db).drop db.length,
      ∃ sp span, span ∈ finditer sp text ∧
        r = make_match_record course.id scoring_field pattern.id sp.pattern
              text span := by
  intro r hr
  by_cases he : text.isEmpty
  · simp only [find_pattern_in_course_field, htext, he, if_true,
      List.drop_length] at hr
    cases hr
  · rw [Bool.not_eq_true] at he
    cases hlang : course.languages4scoring scoring_field with
    | none =>
      simp only [find_pattern_in_course_field, htext, he, Bool.false_eq_true,
        if_false, hlang, List.drop_length] at hr
      cases hr
    | some langs =>
      cases langs with
      | nil =>
        simp only [find_pattern_in_course_field, htext, he, Bool.false_eq_true,
          if_false, hlang, List.drop_length] at hr
        cases hr
      | cons main_language other_languages =>
        cases hchain : pattern.chain main_language with
        | none =>
          simp only [find_pattern_in_course_field, htext, he,
            Bool.false_eq_true, if_false, hlang, hchain,
            List.drop_length] at hr
          cases hr
        | some chain =>
          cases chain with
          | nil =>
            simp only [find_pattern_in_course_field, htext, he,
              Bool.false_eq_true, if_false, hlang, hchain,
              List.drop_length] at hr
            cases hr
          | cons head rest =>
            cases hloop : find_pattern_loop finditer text course.id
                scoring_field pattern.id [] (head :: rest) with
            | none =>
              simp only [find_pattern_in_course_field, htext, he,
                Bool.false_eq_true, if_false, hlang, hchain, hloop,
                List.drop_length] at hr
              cases hr
            | some matched_patterns =>
              simp only [find_pattern_in_course_field, htext, he,
                Bool.false_eq_true, if_false, hlang, hchain, hloop,
                List.drop_left] at hr
              rcases find_pattern_loop_mem finditer text course.id
                  scoring_field pattern.id (head :: rest) [] matched_patterns
                  hloop r hr with hacc | ⟨sp, span, _, hspan, hrec⟩
              · cases hacc
              · exact ⟨sp, span, hspan, hrec⟩

/-- Helper: a Python slice `text[a:b]` with `b ≤ len(text) - 1` occurs as a
contiguous segment of `text` with its last character removed. -/
theorem slice_inside_dropLast (text : List Char) (a b : Nat)
    (hb : b ≤ text.length - 1) :
    ∃ u v, u ++ ((text.drop a).take (b - a)) ++ v = text.dropLast := by
  by_cases hab : b ≤ a
  · rw [Nat.sub_eq_zero_of_le hab]
    exact ⟨text.dropLast, [], by simp⟩
  · push_neg at hab
    refine ⟨text.take a, (text.take (text.length - 1)).drop b, ?_⟩
    have h1 : (text.drop a).take (b - a) = (text.take b).drop a :=
      (List.drop_take b a text).symm
    have h2 : text.take a = (text.take b).take a := by
      rw [List.take_take, Nat.min_eq_left (le_of_lt hab)]
    have h3 : text.take b = (text.take (text.length - 1)).take b := by
      rw [List.take_take, Nat.min_eq_left hb]
    rw [List.dropLast_eq_take, h1, h2, List.take_append_drop, h3,
      List.take_append_drop]

/-- C7: every match record emitted by a call to
`find_pattern_in_course_field` on a field whose text is `text` carries the
excerpt `text[max(0, start-20) : min(end+20, len(text)-1)]` (with natural
subtraction, `start - 20 = max(0, start - 20)`); in particular the excerpt
never exceeds the text's length, it lies inside the text with its final
character removed (the upper bound excludes the last character), and a match
with `start = 0` yields the excerpt beginning at text offset `0`. -/
theorem match_record_extract_spec (finditer : RegexEngine) (course : Course)
    (scoring_field : String) (pattern : PatternRow) (db : List MatchRecord)
    (text : List Char) (r : MatchRecord)
    (htext : course.fields scoring_field = some text)
    (hr : r ∈ (find_pattern_in_course_field finditer course scoring_field
        pattern db).drop db.length) :
    r.extract = (text.drop (r.start - 20)).take
        (min (r.«end» + 20) (text.length - 1) - (r.start - 20)) ∧
    r.extract.length ≤ text.length ∧
    (∃ u v, u ++ r.extract ++ v = text.dropLast) ∧
    (r.start = 0 →
      r.extract = text.take (min (r.«end» + 20) (text.length - 1))) := by
  obtain ⟨sp, span, hspan, hrec⟩ := find_pattern_in_course_field_emitted
    finditer course scoring_field pattern db text htext r hr
  subst hrec
  refine ⟨rfl, ?_, ?_, ?_⟩
  · simp only [make_match_record, List.length_take, List.length_drop]
    exact Nat.le_trans (Nat.min_le_right _ _) (Nat.sub_le _ _)
  · exact slice_inside_dropLast text (span.1 - 20)
      (min (span.2 + 20) (text.length - 1)) (Nat.min_le_right _ _)
  · intro h0
    simp only [make_match_record] at h0 ⊢
    rw [h0]
    simp

/-- Witness for C7 at a concrete input: the single record emitted for span
`(0, 4)` on the 8-character text `"abcdefgh"` has an excerpt that does not
exceed the text's length (it is `"abcdefg"`, the text minus its final
character). -/
theorem match_record_extract_spec_witness :
    (make_match_record "c1".data "description" 3 "ab".data "abcdefgh".data
      (0, 4)).extract.length ≤ "abcdefgh".data.length :=
  (match_record_extract_spec (fun _ _ => [(0, 4)])
    { id := "c1".data, fields := fun _ => some "abcdefgh".data,
      languages4scoring := fun _ => some ["en"] }
    "description" { id := 3, chain := fun _ => some [re_compile "ab".data] }
    [] "abcdefgh".data
    (make_match_record "c1".data "description" 3 "ab".data "abcdefgh".data
      (0, 4))
    rfl (by decide)).2.1

/-- Helper: the empty pattern list is a prefix of every list. -/
theorem nil_isPrefixOf_true (l : List Char) :
    List.isPrefixOf ([] : List Char) l = true := by
  cases l <;> rfl

/-- Helper: `replaceAll` on the empty string. -/
theorem replaceAll_nil (old new : List Char) : replaceAll old new [] = [] := by
  rw [replaceAll]

/-- Helper: when the pattern does not begin at the current position,
`replaceAll` copies the head character. -/
theorem replaceAll_cons_miss (old new : List Char) (c : Char) (cs : List Char)
    (h : old.isPrefixOf (c :: cs) = false) :
    replaceAll old new (c :: cs) = c :: replaceAll old new cs := by
  rw [replaceAll, dif_neg]
  rintro ⟨-, hp⟩
  rw [h] at hp
  exact absurd hp (by decide)

/-- Helper: when the non-empty pattern begins at the current position,
`replaceAll` emits the replacement and skips over the occurrence. -/
theorem replaceAll_cons_hit (old new : List Char) (c : Char) (cs : List Char)
    (hne : old ≠ []) (h : old.isPrefixOf (c :: cs) = true) :
    replaceAll old new (c :: cs) =
      new ++ replaceAll old new (List.drop old.length (c :: cs)) := by
  rw [replaceAll, dif_pos ⟨hne, h⟩]

/-- Helper: a four-character pattern that is a prefix forces the shape of the
text. -/
theorem four_char_shape (a b c d : Char) (s : List Char)
    (h : List.isPrefixOf [a, b, c, d] s = true) :
    ∃ rest, s = a :: b :: c :: d :: rest := by
  cases s with
  | nil => simp [List.isPrefixOf] at h
  | cons x1 t1 =>
    cases t1 with
    | nil => simp [List.isPrefixOf] at h
    | cons x2 t2 =>
      cases t2 with
      | nil => simp [List.isPrefixOf] at h
      | cons x3 t3 =>
        cases t3 with
        | nil => simp [List.isPrefixOf] at h
        | cons x4 t4 =>
          simp only [List.isPrefixOf, nil_isPrefixOf_true, Bool.and_true,
            Bool.and_eq_true, beq_iff_eq] at h
          obtain ⟨h1, h2, h3, h4⟩ := h
          exact ⟨t4, by rw [h1, h2, h3, h4]⟩

/-- Helper: the first replacement pass consumes its own occurrence. -/
theorem replaceAll_p1_hit (u : List Char) :
    replaceAll ['[', '-', ' ', ']'] ['[', '\\', '-', '\\', 's', ']']
        ('[' :: '-' :: ' ' :: ']' :: u) =
      '[' :: '\\' :: '-' :: '\\' :: 's' :: ']' ::
        replaceAll ['[', '-', ' ', ']'] ['[', '\\', '-', '\\', 's', ']'] u := by
  rw [replaceAll_cons_hit _ _ _ _ (by decide)
    (by simp [List.isPrefixOf, nil_isPrefixOf_true])]
  rfl

/-- Helper: the first replacement pass walks through a `"[^ ]"` segment
untouched. -/
theorem replaceAll_p1_over_p2seg (u : List Char) :
    replaceAll ['[', '-', ' ', ']'] ['[', '\\', '-', '\\', 's', ']']
        ('[' :: '^' :: ' ' :: ']' :: u) =
      '[' :: '^' :: ' ' :: ']' ::
        replaceAll ['[', '-', ' ', ']'] ['[', '\\', '-', '\\', 's', ']'] u := by
  rw [replaceAll_cons_miss _ _ _ _ (by rfl), replaceAll_cons_miss _ _ _ _ (by rfl),
    replaceAll_cons_miss _ _ _ _ (by rfl), replaceAll_cons_miss _ _ _ _ (by rfl)]

/-- Helper: the second replacement pass walks through an emitted `"[\-\s]"`
block untouched. -/
theorem replaceAll_p2_over_r1 (u : List Char) :
    replaceAll ['[', '^', ' ', ']'] ['[', '^', '\\', 's', ']']
        ('[' :: '\\' :: '-' :: '\\' :: 's' :: ']' :: u) =
      '[' :: '\\' :: '-' :: '\\' :: 's' :: ']' ::
        replaceAll ['[', '^', ' ', ']'] ['[', '^', '\\', 's', ']'] u := by
  rw [replaceAll_cons_miss _ _ _ _ (by rfl), replaceAll_cons_miss _ _ _ _ (by rfl),
    replaceAll_cons_miss _ _ _ _ (by rfl), replaceAll_cons_miss _ _ _ _ (by rfl),
    replaceAll_cons_miss _ _ _ _ (by rfl), replaceAll_cons_miss _ _ _ _ (by rfl)]

/-- Helper: the second replacement pass consumes its own occurrence. -/
theorem replaceAll_p2_hit (u : List Char) :
    replaceAll ['[', '^', ' ', ']'] ['[', '^', '\\', 's', ']']
        ('[' :: '^' :: ' ' :: ']' :: u) =
      '[' :: '^' :: '\\' :: 's' :: ']' ::
        replaceAll ['[', '^', ' ', ']'] ['[', '^', '\\', 's', ']'] u := by
  rw [replaceAll_cons_hit _ _ _ _ (by decide)
    (by simp [List.isPrefixOf, nil_isPrefixOf_true])]
  rfl

/-- Helper: the space-replacement pass walks through an emitted `"[\-\s]"`
block untouched. -/
theorem replaceAll_sp_over_r1 (u : List Char) :
    replaceAll [' '] ['\\', 's', '+']
        ('[' :: '\\' :: '-' :: '\\' :: 's' :: ']' :: u) =
      '[' :: '\\' :: '-' :: '\\' :: 's' :: ']' ::
        replaceAll [' '] ['\\', 's', '+'] u := by
  rw [replaceAll_cons_miss _ _ _ _ (by rfl), replaceAll_cons_miss _ _ _ _ (by rfl),
    replaceAll_cons_miss _ _ _ _ (by rfl), replaceAll_cons_miss _ _ _ _ (by rfl),
    replaceAll_cons_miss _ _ _ _ (by rfl), replaceAll_cons_miss _ _ _ _ (by rfl)]

/-- Helper: the space-replacement pass walks through an emitted `"[^\s]"`
block untouched. -/
theorem replaceAll_sp_over_r2 (u : List Char) :
    replaceAll [' '] ['\\', 's', '+'] ('[' :: '^' :: '\\' :: 's' :: ']' :: u) =
      '[' :: '^' :: '\\' :: 's' :: ']' ::
        replaceAll [' '] ['\\', 's', '+'] u := by
  rw [replaceAll_cons_miss _ _ _ _ (by rfl), replaceAll_cons_miss _ _ _ _ (by rfl),
    replaceAll_cons_miss _ _ _ _ (by rfl), replaceAll_cons_miss _ _ _ _ (by rfl),
    replaceAll_cons_miss _ _ _ _ (by rfl)]

/-- Helper: the space-replacement pass consumes a space. -/
theorem replaceAll_sp_hit (u : List Char) :
    replaceAll [' '] ['\\', 's', '+'] (' ' :: u) =
      '\\' :: 's' :: '+' :: replaceAll [' '] ['\\', 's', '+'] u := by
  rw [replaceAll_cons_hit _ _ _ _ (by decide)
    (by simp [List.isPrefixOf, nil_isPrefixOf_true])]
  rfl

/-- Helper: a false Boolean is not true. -/
theorem bool_ne_true (b : Bool) (h : b = false) : ¬ (b = true) := by
  simp [h]

/-- Helper: the space pattern misses any non-space head. -/
theorem sp_step_ne (c : Char) (h : c ≠ ' ') (u : List Char) :
    replaceAll [' '] ['\\', 's', '+'] (c :: u) =
      c :: replaceAll [' '] ['\\', 's', '+'] u := by
  apply replaceAll_cons_miss
  simp only [List.isPrefixOf, nil_isPrefixOf_true, Bool.and_true]
  exact beq_eq_false_iff_ne.mpr (fun hc => h hc.symm)

/-- Helper: the `"[^ ]"` pattern misses any head other than `'['`. -/
theorem p2_step_ne (c : Char) (h : c ≠ '[') (u : List Char) :
    replaceAll ['[', '^', ' ', ']'] ['[', '^', '\\', 's', ']'] (c :: u) =
      c :: replaceAll ['[', '^', ' ', ']'] ['[', '^', '\\', 's', ']'] u := by
  apply replaceAll_cons_miss
  simp only [List.isPrefixOf]
  rw [beq_eq_false_iff_ne.mpr (fun hc => h hc.symm), Bool.false_and]

/-- Helper: the first pass cannot create a `"]"` start where none existed. -/
theorem replaceAll1_keeps_no_seg1 (es : List Char)
    (h : List.isPrefixOf [']'] es = false) :
    List.isPrefixOf [']']
      (replaceAll ['[', '-', ' ', ']'] ['[', '\\', '-', '\\', 's', ']'] es)
      = false := by
  cases es with
  | nil => rw [replaceAll_nil]; rfl
  | cons f fs =>
    by_cases hp : List.isPrefixOf ['[', '-', ' ', ']'] (f :: fs) = true
    · obtain ⟨rest, hrest⟩ := four_char_shape '[' '-' ' ' ']' (f :: fs) hp
      rw [hrest, replaceAll_p1_hit]; rfl
    · rw [Bool.not_eq_true] at hp
      rw [replaceAll_cons_miss _ _ _ _ hp]
      simpa [List.isPrefixOf, nil_isPrefixOf_true] using h

/-- Helper: the first pass cannot create a `" ]"` start where none existed. -/
theorem replaceAll1_keeps_no_seg2 (ds : List Char)
    (h : List.isPrefixOf [' ', ']'] ds = false) :
    List.isPrefixOf [' ', ']']
      (replaceAll ['[', '-', ' ', ']'] ['[', '\\', '-', '\\', 's', ']'] ds)
      = false := by
  cases ds with
  | nil => rw [replaceAll_nil]; rfl
  | cons e es =>
    by_cases hp : List.isPrefixOf ['[', '-', ' ', ']'] (e :: es) = true
    · obtain ⟨rest, hrest⟩ := four_char_shape '[' '-' ' ' ']' (e :: es) hp
      rw [hrest, replaceAll_p1_hit]; rfl
    · rw [Bool.not_eq_true] at hp
      rw [replaceAll_cons_miss _ _ _ _ hp]
      by_cases he : e = ' '
      · subst he
        have h1 : List.isPrefixOf [']'] es = false := by
          simpa [List.isPrefixOf] using h
        have h2 := replaceAll1_keeps_no_seg1 es h1
        simp [List.isPrefixOf, h2]
      · simp only [List.isPrefixOf]
        rw [beq_eq_false_iff_ne.mpr (fun hc => he hc.symm), Bool.false_and]

/-- Helper: the first pass cannot create a `"^ ]"` start where none existed. -/
theorem replaceAll1_keeps_no_seg3 (cs : List Char)
    (h : List.isPrefixOf ['^', ' ', ']'] cs = false) :
    List.isPrefixOf ['^', ' ', ']']
      (replaceAll ['[', '-', ' ', ']'] ['[', '\\', '-', '\\', 's', ']'] cs)
      = false := by
  cases cs with
  | nil => rw [replaceAll_nil]; rfl
  | cons d ds =>
    by_cases hp : List.isPrefixOf ['[', '-', ' ', ']'] (d :: ds) = true
    · obtain ⟨rest, hrest⟩ := four_char_shape '[' '-' ' ' ']' (d :: ds) hp
      rw [hrest, replaceAll_p1_hit]; rfl
    · rw [Bool.not_eq_true] at hp
      rw [replaceAll_cons_miss _ _ _ _ hp]
      by_cases hd : d = '^'
      · subst hd
        have h1 : List.isPrefixOf [' ', ']'] ds = false := by
          simpa [List.isPrefixOf] using h
        have h2 := replaceAll1_keeps_no_seg2 ds h1
        simp [List.isPrefixOf, h2]
      · simp only [List.isPrefixOf]
        rw [beq_eq_false_iff_ne.mpr (fun hc => hd hc.symm), Bool.false_and]

/-- Helper: if `"[^ ]"` did not start at this position of the original text,
it does not start there after the first pass has rewritten the tail. -/
theorem replaceAll1_keeps_no_p2 (c : Char) (cs : List Char)
    (hp2 : List.isPrefixOf ['[', '^', ' ', ']'] (c :: cs) = false) :
    List.isPrefixOf ['[', '^', ' ', ']']
      (c :: replaceAll ['[', '-', ' ', ']'] ['[', '\\', '-', '\\', 's', ']']
        cs) = false := by
  by_cases hc : c = '['
  · subst hc
    have hseg : List.isPrefixOf ['^', ' ', ']'] cs = false := by
      simpa [List.isPrefixOf] using hp2
    have h2 := replaceAll1_keeps_no_seg3 cs hseg
    simp [List.isPrefixOf, h2]
  · simp only [List.isPrefixOf]
    rw [beq_eq_false_iff_ne.mpr (fun h => hc h.symm), Bool.false_and]

/-- Helper: the one-pass normalizer on a `"[- ]"` occurrence. -/
theorem correctOnePass_p1 (u : List Char) :
    correctOnePass ('[' :: '-' :: ' ' :: ']' :: u) =
      '[' :: '\\' :: '-' :: '\\' :: 's' :: ']' :: correctOnePass u := by
  rw [correctOnePass,
    if_pos (by simp [List.isPrefixOf, nil_isPrefixOf_true])]
  rfl

/-- Helper: the one-pass normalizer on a `"[^ ]"` occurrence. -/
theorem correctOnePass_p2 (u : List Char) :
    correctOnePass ('[' :: '^' :: ' ' :: ']' :: u) =
      '[' :: '^' :: '\\' :: 's' :: ']' :: correctOnePass u := by
  rw [correctOnePass, if_neg (bool_ne_true _ (by rfl)),
    if_pos (by simp [List.isPrefixOf, nil_isPrefixOf_true])]
  rfl

/-- Helper: the one-pass normalizer on a space. -/
theorem correctOnePass_sp (u : List Char) :
    correctOnePass (' ' :: u) = '\\' :: 's' :: '+' :: correctOnePass u := by
  rw [correctOnePass, if_neg (bool_ne_true _ (by rfl)),
    if_neg (bool_ne_true _ (by rfl)), if_pos rfl]
  rfl

/-- Helper: the one-pass normalizer copies any other character. -/
theorem correctOnePass_other (c : Char) (u : List Char)
    (hp1 : List.isPrefixOf ['[', '-', ' ', ']'] (c :: u) = false)
    (hp2 : List.isPrefixOf ['[', '^', ' ', ']'] (c :: u) = false)
    (hc : c ≠ ' ') :
    correctOnePass (c :: u) = c :: correctOnePass u := by
  rw [correctOnePass, if_neg (bool_ne_true _ hp1),
    if_neg (bool_ne_true _ hp2), if_neg hc]

/-- Helper: the three sequential replacements of `correct` compute exactly
the one-pass normalization. -/
theorem sequential_eq_onePass (s : List Char) :
    replaceAll [' '] ['\\', 's', '+']
      (replaceAll ['[', '^', ' ', ']'] ['[', '^', '\\', 's', ']']
        (replaceAll ['[', '-', ' ', ']'] ['[', '\\', '-', '\\', 's', ']'] s))
      = correctOnePass s := by
  have main : ∀ (n : Nat) (t : List Char), t.length ≤ n →
      replaceAll [' '] ['\\', 's', '+']
        (replaceAll ['[', '^', ' ', ']'] ['[', '^', '\\', 's', ']']
          (replaceAll ['[', '-', ' ', ']'] ['[', '\\', '-', '\\', 's', ']'] t))
        = correctOnePass t := by
    intro n
    induction n with
    | zero =>
      intro t ht
      have hnil : t = [] := List.length_eq_zero.mp (Nat.le_zero.mp ht)
      subst hnil
      rw [replaceAll_nil, replaceAll_nil, replaceAll_nil, correctOnePass]
    | succ n ih =>
      intro t ht
      cases t with
      | nil => rw [replaceAll_nil, replaceAll_nil, replaceAll_nil,
          correctOnePass]
      | cons c cs =>
        have hlen : cs.length ≤ n := Nat.le_of_succ_le_succ ht
        by_cases hp1 : List.isPrefixOf ['[', '-', ' ', ']'] (c :: cs) = true
        · obtain ⟨rest, hrest⟩ := four_char_shape '[' '-' ' ' ']' (c :: cs) hp1
          have hrl : rest.length ≤ n := by
            have hlc := congrArg List.length hrest
            simp only [List.length_cons] at hlc ht
            omega
          rw [hrest, replaceAll_p1_hit, replaceAll_p2_over_r1,
            replaceAll_sp_over_r1, ih rest hrl, correctOnePass_p1]
        · rw [Bool.not_eq_true] at hp1
          by_cases hp2 : List.isPrefixOf ['[', '^', ' ', ']'] (c :: cs) = true
          · obtain ⟨rest, hrest⟩ :=
              four_char_shape '[' '^' ' ' ']' (c :: cs) hp2
            have hrl : rest.length ≤ n := by
              have hlc := congrArg List.length hrest
              simp only [List.length_cons] at hlc ht
              omega
            rw [hrest, replaceAll_p1_over_p2seg, replaceAll_p2_hit,
              replaceAll_sp_over_r2, ih rest hrl, correctOnePass_p2]
          · rw [Bool.not_eq_true] at hp2
            by_cases hsp : c = ' '
            · subst hsp
              rw [replaceAll_cons_miss _ _ _ _ hp1,
                p2_step_ne ' ' (by decide), replaceAll_sp_hit, ih cs hlen,
                correctOnePass_sp]
            · rw [replaceAll_cons_miss _ _ _ _ hp1,
                replaceAll_cons_miss _ _ _ _ (replaceAll1_keeps_no_p2 c cs
                  hp2),
                sp_step_ne c hsp, ih cs hlen,
                correctOnePass_other c cs hp1 hp2 hsp]
  exact main s.length s (Nat.le_refl _)

/-- C5: the normalizer applies exactly the three substring replacements of
the source, in this order — `"[- ]"` becomes `"[\-\s]"`, `"[^ ]"` becomes
`"[^\s]"`, then every remaining literal space becomes `"\s+"` — and alters no
other character: on every pattern it coincides with the one-pass
character-level transformation `correctOnePass` (which by construction only
rewrites those three shapes and copies everything else), and a missing
pattern passes through unchanged. -/
theorem correct_normalizer_spec :
    correct none = none ∧
    ∀ p : List Char, correct (some p) = some (correctOnePass p) :=
  ⟨rfl, fun p => congrArg some (sequential_eq_onePass p)⟩

/-- C6: compiling a missing pattern yields the empty chain, and compiling a
present normalized pattern yields one case-insensitive matcher per
`'#'`-separated segment, in left-to-right order: the matchers' pattern texts
are exactly the `'#'`-split of the input (so re-joining them with `'#'`
recovers the input), and every matcher carries the ignore-case flag. -/
theorem break_into_sub_patterns_spec :
    break_into_sub_patterns none = [] ∧
    ∀ p : List Char,
      (break_into_sub_patterns (some p)).map CompiledPattern.pattern =
          p.splitOn '#' ∧
      ['#'].intercalate ((break_into_sub_patterns (some p)).map
          CompiledPattern.pattern) = p ∧
      (break_into_sub_patterns (some p)).all
          (fun m => m.ignoreCase) = true := by
  refine ⟨rfl, fun p => ?_⟩
  have hmap : (break_into_sub_patterns (some p)).map CompiledPattern.pattern
      = p.splitOn '#' := by
    simp only [break_into_sub_patterns, List.map_map]
    have hcomp : CompiledPattern.pattern ∘ re_compile = id := rfl
    rw [hcomp, List.map_id]
  refine ⟨hmap, ?_, ?_⟩
  · rw [hmap]
    exact List.intercalate_splitOn ..
  · rw [List.all_eq_true]
    intro m hm
    simp only [break_into_sub_patterns] at hm
    obtain ⟨seg, _, hseg⟩ := List.mem_map.mp hm
    rw [hseg.symm]
    rfl

/-- C10: the course-loading cleaner returns a string of exactly the same
length (hence match offsets computed against the cleaned text are valid
character positions of the original field text), and acts purely pointwise:
the character at each position becomes a space if it was a non-breaking
space (U+00A0), an apostrophe if it was a right single quotation mark
(U+2019), and is unchanged otherwise. -/
theorem clean_text_length_and_pointwise (text : List Char) :
    (clean_text text).length = text.length ∧
    ∀ (i : Nat) (c : Char), text[i]? = some c →
      (clean_text text)[i]? =
        some (if c = '\u00A0' then ' '
              else if c = '\u2019' then '\u0027' else c) := by
  constructor
  · exact List.length_map ..
  · intro i c hc
    rw [clean_text, List.getElem?_map, hc]
    rfl

/-- Witness for C10 at a concrete input: cleaning the 3-character text with a
right single quotation mark at position 1 keeps the length and maps that
character to an apostrophe. -/
theorem clean_text_length_and_pointwise_witness :
    (clean_text "a\u2019b".data).length = "a\u2019b".data.length ∧
    (clean_text "a\u2019b".data)[1]? =
      some (if '\u2019' = '\u00A0' then ' '
            else if '\u2019' = '\u2019' then '\u0027' else '\u2019') :=
  ⟨(clean_text_length_and_pointwise "a\u2019b".data).1,
   (clean_text_length_and_pointwise "a\u2019b".data).2 1 '\u2019' rfl⟩
